import Mathlib

/-!
Verification of `create_eslint_standard.py`: a shallow embedding of the
rule translator, the pattern-catalog reconciler, the batch synchronizer,
the pagination drain and the config-text normalizer, with theorems about
the behaviours the specification describes.

Python values flowing through the translator are modelled by `JValue`
(ints/floats as `Int`, strings, lists, dicts as ordered key/value lists,
`None` as `null`).  Python dicts used as lookup tables are modelled as
association lists where a later insertion is prepended, so that
`List.lookup` (first hit) realises the dict's last-write-wins reads.
-/

/-- A Python value as it appears in a parsed ESLint configuration. -/
inductive JValue where
  | null : JValue
  | num : Int → JValue
  | str : String → JValue
  | list : List JValue → JValue
  | dict : List (String × JValue) → JValue

/-- One `{"name": ..., "value": ...}` parameter, values already coerced to strings. -/
structure MappedParam where
  name : String
  value : String
deriving Repr, DecidableEq

/-- The output of `map_eslint_rule_to_codacy`: `parameters = none` models the
`"parameters"` key being absent from the returned dict. -/
structure CodacyPattern where
  id : String
  enabled : Bool
  patternId : String
  parameters : Option (List MappedParam)
deriving Repr, DecidableEq

/-- The double-quote character, kept as a named constant for the scanners. -/
def dquote : Char := Char.ofNat 34

/-- The single-quote character. -/
def squote : Char := Char.ofNat 39

/-- The backslash character. -/
def bslash : Char := Char.ofNat 92

/-- Minimal model of `json.dumps` escaping for one character. -/
def jsonEscapeChar (c : Char) : List Char :=
  if c = dquote then [bslash, dquote]
  else if c = bslash then [bslash, bslash]
  else [c]

/-- Minimal model of `json.dumps` string escaping. -/
def jsonEscape (s : String) : String :=
  String.mk (s.toList.foldr (fun c acc => jsonEscapeChar c ++ acc) [])

mutual

/-- Model of Python `json.dumps` on a `JValue` (default separators). -/
def jsonDumps : JValue → String
  | JValue.null => "null"
  | JValue.num n => toString n
  | JValue.str s => "\"" ++ jsonEscape s ++ "\""
  | JValue.list l => "[" ++ jsonDumpsList l ++ "]"
  | JValue.dict d => "\x7b" ++ jsonDumpsDict d ++ "\x7d"

/-- Comma-separated serialization of a list body. -/
def jsonDumpsList : List JValue → String
  | [] => ""
  | [v] => jsonDumps v
  | v :: w :: vs => jsonDumps v ++ ", " ++ jsonDumpsList (w :: vs)

/-- Comma-separated serialization of a dict body. -/
def jsonDumpsDict : List (String × JValue) → String
  | [] => ""
  | [(k, v)] => "\"" ++ jsonEscape k ++ "\": " ++ jsonDumps v
  | (k, v) :: kw :: kvs =>
    "\"" ++ jsonEscape k ++ "\": " ++ jsonDumps v ++ ", " ++ jsonDumpsDict (kw :: kvs)

end

/-- `str(param_value)` after the translator's
`if isinstance(param_value, (list, dict)): param_value = json.dumps(param_value)`:
lists and dicts are serialized, strings pass through, ints print, `None`
prints as `"None"`. -/
def mapParamValue : JValue → String
  | JValue.list l => jsonDumps (JValue.list l)
  | JValue.dict d => jsonDumps (JValue.dict d)
  | JValue.str s => s
  | JValue.num n => toString n
  | JValue.null => "None"

/-- `severity in ['error', 'warn', 2, 1]` under Python equality: a string equals
only the two string members, an int equals only the two int members, and any
other value equals none of them. -/
def severityEnabled : JValue → Bool
  | JValue.str s => s == "error" || s == "warn"
  | JValue.num n => n == 2 || n == 1
  | _ => false

/-- `if isinstance(severity, (int, float)): severity = "error" if severity == 2
else "warn"` — the numeric-severity coercion. -/
def coerceSeverity : JValue → JValue
  | JValue.num n => JValue.str (if n = 2 then "error" else "warn")
  | s => s

/-- The `"parameters"` field computation: `if parameters and
isinstance(parameters, dict)` (an empty dict is falsy) build the name/value
list, attach it only if non-empty; otherwise the field is absent (`none`). -/
def paramsField : Option JValue → Option (List MappedParam)
  | some (JValue.dict d) =>
    if d.isEmpty then none
    else
      let mapped := d.map (fun kv => MappedParam.mk kv.1 (mapParamValue kv.2))
      if mapped.isEmpty then none else some mapped
  | _ => none

/-- The lower half of `map_eslint_rule_to_codacy`, from the numeric-severity
coercion through the construction of the returned pattern dict.  `parameters0`
is the raw payload (`rule_config[1]` / the whole dict / `None`). -/
def finishPattern (rule_name : String) (severity0 : JValue) (parameters0 : Option JValue) :
    Option CodacyPattern :=
  if severityEnabled (coerceSeverity severity0) then
    some (CodacyPattern.mk rule_name true rule_name (paramsField parameters0))
  else none

/-- Model of `map_eslint_rule_to_codacy`.  A numeric scalar equal to `0` is
dropped; any other numeric scalar is rewritten to the one-element list
`[severity_string]` and re-dispatched.  An empty list raises `IndexError` at
`rule_config[0]`, which the enclosing `except` turns into `None`. -/
def map_eslint_rule_to_codacy (rule_name : String) (rule_config : JValue) :
    Option CodacyPattern :=
  let rc : Option JValue :=
    match rule_config with
    | JValue.num n =>
      if n = 0 then none
      else some (JValue.list [JValue.str (if n = 2 then "error" else "warn")])
    | other => some other
  match rc with
  | none => none
  | some (JValue.list []) => none
  | some (JValue.list (s :: rest)) => finishPattern rule_name s rest.head?
  | some (JValue.str s) => finishPattern rule_name (JValue.str s) none
  | some (JValue.dict d) => finishPattern rule_name (JValue.str "error") (some (JValue.dict d))
  | some _ => none

/-- The parameter payload a rule declaration carries, as the code extracts it:
the second list element when the value is a list of length `> 1`, the whole
mapping when the value is a dict, nothing otherwise. -/
def rulePayload : JValue → Option JValue
  | JValue.list (_ :: v :: _) => some v
  | JValue.dict d => some (JValue.dict d)
  | _ => none

/-- A concrete enabled rule with a non-empty mapping payload, for the C10 witness. -/
def c10rc : JValue := JValue.list [JValue.str "warn", JValue.dict [("code", JValue.num 120)]]

/-- The pattern the translator produces for `c10rc`. -/
def c10p : CodacyPattern :=
  CodacyPattern.mk "max-len" true "max-len" (some [MappedParam.mk "code" "120"])

/-! ## Pattern Catalog Reconciler (`update_coding_standard_tool`, ESLint branch) -/

/-- `pattern['patternDefinition']` contents: the `'id'` key may be absent. -/
structure PatternDefinition where
  id : Option String
deriving Repr, DecidableEq

/-- One element of the fetched catalog; the `'patternDefinition'` key may be absent. -/
structure CatalogEntry where
  patternDefinition : Option PatternDefinition
deriving Repr, DecidableEq

/-- The identifier guarded by `'patternDefinition' in pattern and 'id' in
pattern['patternDefinition']`. -/
def catalogId (c : CatalogEntry) : Option String :=
  match c.patternDefinition with
  | some d => d.id
  | none => none

/-- Python `s.replace('/', '_')` (single-character pattern, so per-character). -/
def replSlashUnd (s : String) : String :=
  String.mk (s.toList.map (fun c => if c = '/' then '_' else c))

/-- `pattern_id[8:] if pattern_id.startswith('ESLint8_') else pattern_id`. -/
def baseId (pid : String) : String :=
  if "ESLint8_".toList.isPrefixOf pid.toList then String.mk (pid.toList.drop 8) else pid

/-- One iteration of the mapping-construction loop: write `base_id ↦
pattern_id` then `normalized_id ↦ pattern_id`.  Writes are prepended so that a
`List.lookup` (first hit) sees the most recent write, as Python dict reads do. -/
def pmStep (m : List (String × String)) (c : CatalogEntry) : List (String × String) :=
  match catalogId c with
  | none => m
  | some pid => (replSlashUnd (baseId pid), pid) :: (baseId pid, pid) :: m

/-- The `pattern_mapping` dict built from the fully fetched catalog before
matching begins. -/
def pattern_mapping (all_patterns : List CatalogEntry) : List (String × String) :=
  all_patterns.foldl pmStep []

/-- The per-rule lookup: the rule name directly, then the rule name with `/`
replaced by `_`, first hit winning. -/
def find_codacy_id (m : List (String × String)) (rule_name : String) : Option String :=
  match m.lookup rule_name with
  | some v => some v
  | none => m.lookup (replSlashUnd rule_name)

/-- One entry of the `patterns` list sent in an update request. -/
structure PatternDirective where
  id : String
  enabled : Bool
  parameters : List MappedParam
deriving Repr, DecidableEq

/-- The `enabled_patterns` list: each translated pattern that resolves against
the catalog becomes an enable-directive carrying the resolved catalog id and
`pattern.get("parameters", [])`. -/
def enabled_patterns (all_patterns : List CatalogEntry) (patterns : List CodacyPattern) :
    List PatternDirective :=
  patterns.filterMap (fun p =>
    (find_codacy_id (pattern_mapping all_patterns) p.id).map
      (fun cid => PatternDirective.mk cid true (p.parameters.getD [])))

/-- The `disabled_patterns` list: every catalog pattern whose id is not the id
of any enable-directive becomes a disable-directive with empty parameters. -/
def disabled_patterns (all_patterns : List CatalogEntry) (patterns : List CodacyPattern) :
    List PatternDirective :=
  all_patterns.filterMap (fun c =>
    match catalogId c with
    | none => none
    | some pid =>
      if (enabled_patterns all_patterns patterns).any (fun ep => ep.id == pid) then none
      else some (PatternDirective.mk pid false []))

/-- A two-entry catalog for the C3 witness. -/
def c3cat : List CatalogEntry :=
  [CatalogEntry.mk (some (PatternDefinition.mk (some "ESLint8_no-unused-vars"))),
   CatalogEntry.mk (some (PatternDefinition.mk (some "ESLint8_semi")))]

/-- A one-rule desired set for the C3 witness. -/
def c3rules : List CodacyPattern :=
  [CodacyPattern.mk "no-unused-vars" true "no-unused-vars" none]

/-- A singleton catalog holding `ESLint8_no-unused-vars`. -/
def c4catDirect : List CatalogEntry :=
  [CatalogEntry.mk (some (PatternDefinition.mk (some "ESLint8_no-unused-vars")))]

/-- A singleton catalog holding `ESLint8_react_jsx-uses-vars`. -/
def c4catPlugin : List CatalogEntry :=
  [CatalogEntry.mk (some (PatternDefinition.mk (some "ESLint8_react_jsx-uses-vars")))]

theorem paramsField_isSome (params : Option JValue) :
    (paramsField params).isSome = true ↔ ∃ d, params = some (JValue.dict d) ∧ d ≠ [] := by
  match params with
  | none => simp [paramsField]
  | some JValue.null => simp [paramsField]
  | some (JValue.num n) => simp [paramsField]
  | some (JValue.str s) => simp [paramsField]
  | some (JValue.list l) => simp [paramsField]
  | some (JValue.dict []) => simp [paramsField]
  | some (JValue.dict (kv :: kvs)) => simp [paramsField]

theorem finishPattern_parameters (name : String) (sev0 : JValue) (params : Option JValue)
    (p : CodacyPattern) (h : finishPattern name sev0 params = some p) :
    p.parameters.isSome = true ↔ ∃ d, params = some (JValue.dict d) ∧ d ≠ [] := by
  unfold finishPattern at h
  split at h
  · obtain rfl : CodacyPattern.mk name true name (paramsField params) = p :=
      Option.some.inj h
    exact paramsField_isSome params
  · exact absurd h (by simp)

/-- C1: a rule whose raw value is the scalar `0`, the string `"off"`, or a list
headed by `"off"` yields no pattern, but — contradicting the claim — a list
headed by the numeric severity `0` yields an enabled pattern: the severity
coercion turns `0` into `"warn"` instead of dropping the rule. -/
theorem map_rule_list_zero_enabled_bug :
    map_eslint_rule_to_codacy "no-console" (JValue.num 0) = none
    ∧ map_eslint_rule_to_codacy "no-console" (JValue.str "off") = none
    ∧ map_eslint_rule_to_codacy "no-console" (JValue.list [JValue.str "off"]) = none
    ∧ map_eslint_rule_to_codacy "no-console" (JValue.list [JValue.num 0])
        = some (CodacyPattern.mk "no-console" true "no-console" none)
    ∧ map_eslint_rule_to_codacy "no-console" (JValue.list [JValue.num 0]) ≠ none := by
  refine ⟨rfl, rfl, rfl, rfl, ?_⟩
  intro hc
  exact absurd hc (by decide)

/-- C2 counterexample: the numeric severity `3` is not in
`{"error", "warn", 1, 2}`, yet the translator emits an enabled pattern for it
(the coercion maps every nonzero number other than `2` to `"warn"`). -/
theorem map_rule_numeric_three_not_dropped :
    map_eslint_rule_to_codacy "eqeqeq" (JValue.num 3)
        = some (CodacyPattern.mk "eqeqeq" true "eqeqeq" none)
    ∧ map_eslint_rule_to_codacy "eqeqeq" (JValue.num 3) ≠ none := by
  refine ⟨rfl, ?_⟩
  intro hc
  exact absurd hc (by decide)

/-- C2 (amended): a string severity outside `{"error", "warn"}` — scalar or
list head — produces no pattern; the numeric severities 1 and 2 produce an
enabled pattern (coerced to `"warn"` resp. `"error"`); but every nonzero
numeric scalar severity, e.g. `3`, also produces an enabled pattern. -/
theorem map_rule_severity_amended (name s : String) (h1 : s ≠ "error") (h2 : s ≠ "warn") :
    map_eslint_rule_to_codacy name (JValue.str s) = none
    ∧ (∀ rest, map_eslint_rule_to_codacy name (JValue.list (JValue.str s :: rest)) = none)
    ∧ map_eslint_rule_to_codacy name (JValue.num 1)
        = some (CodacyPattern.mk name true name none)
    ∧ map_eslint_rule_to_codacy name (JValue.num 2)
        = some (CodacyPattern.mk name true name none)
    ∧ ∀ n : Int, n ≠ 0 → map_eslint_rule_to_codacy name (JValue.num n)
        = some (CodacyPattern.mk name true name none) := by
  refine ⟨?_, ?_, rfl, rfl, ?_⟩
  · simp [map_eslint_rule_to_codacy, finishPattern, coerceSeverity, severityEnabled, h1, h2]
  · intro rest
    simp [map_eslint_rule_to_codacy, finishPattern, coerceSeverity, severityEnabled, h1, h2]
  · intro n hn
    by_cases h2' : n = 2 <;>
      simp [map_eslint_rule_to_codacy, finishPattern, coerceSeverity, severityEnabled,
        paramsField, hn, h2']

/-- C2 witness. -/
theorem map_rule_severity_amended_witness :
    map_eslint_rule_to_codacy "quotes" (JValue.str "foo") = none
    ∧ map_eslint_rule_to_codacy "quotes" (JValue.num 1)
        = some (CodacyPattern.mk "quotes" true "quotes" none) := by
  have h := map_rule_severity_amended "quotes" "foo" (by decide) (by decide)
  exact ⟨h.1, h.2.2.1⟩

/-- C10: whenever the translator does emit a pattern, the `"parameters"` field
is present exactly when the parameter payload is a non-empty mapping; scalar
payloads, list payloads and the empty mapping are silently dropped. -/
theorem map_rule_parameters_presence (name : String) (rc : JValue) (p : CodacyPattern)
    (h : map_eslint_rule_to_codacy name rc = some p) :
    p.parameters.isSome = true ↔ ∃ d, rulePayload rc = some (JValue.dict d) ∧ d ≠ [] := by
  match rc with
  | JValue.null => simp [map_eslint_rule_to_codacy] at h
  | JValue.num n =>
    by_cases h0 : n = 0
    · simp [map_eslint_rule_to_codacy, h0] at h
    · rw [show rulePayload (JValue.num n) = none from rfl]
      have h' : finishPattern name (JValue.str (if n = 2 then "error" else "warn")) none
          = some p := by
        simpa [map_eslint_rule_to_codacy, h0] using h
      rw [finishPattern_parameters name _ none p h']
  | JValue.str s =>
    rw [show rulePayload (JValue.str s) = none from rfl]
    exact finishPattern_parameters name (JValue.str s) none p h
  | JValue.list [] => simp [map_eslint_rule_to_codacy] at h
  | JValue.list (s :: rest) =>
    have hrp : rulePayload (JValue.list (s :: rest)) = rest.head? := by
      cases rest <;> rfl
    rw [hrp]
    exact finishPattern_parameters name s rest.head? p h
  | JValue.dict d =>
    rw [show rulePayload (JValue.dict d) = some (JValue.dict d) from rfl]
    exact finishPattern_parameters name (JValue.str "error") (some (JValue.dict d)) p h

/-- C10 witness. -/
theorem map_rule_parameters_presence_witness :
    c10p.parameters.isSome = true
      ↔ ∃ d, rulePayload c10rc = some (JValue.dict d) ∧ d ≠ [] :=
  map_rule_parameters_presence "max-len" c10rc c10p rfl

/-! ## Batch Synchronizer and pagination -/

/-- The retry loop of `disable_all_tools`: `retries = 3`; each attempt calls
`update_coding_standard_tool(..., enabled=False, patterns=[])`, modelled by the
oracle `call` (argument = attempt index, result = success).  On success the
loop breaks; when the counter reaches zero the error is printed and the loop
breaks without re-raising.  Returns (attempts made, succeeded). -/
def retry_disable_aux (call : Nat → Bool) : Nat → Nat → Nat × Bool
  | 0, attempts => (attempts, false)
  | retries + 1, attempts =>
    if call attempts then (attempts + 1, true)
    else if retries = 0 then (attempts + 1, false)
    else retry_disable_aux call retries (attempts + 1)

/-- `disable_all_tools`: every tool in the list is processed in order through
the 3-attempt retry loop; a tool whose attempts are exhausted is logged and
skipped, and the traversal continues.  The result records, per tool, how many
attempts were made and whether one succeeded. -/
def disable_all_tools (tools : List String) (call : String → Nat → Bool) :
    List (String × Nat × Bool) :=
  tools.map (fun t => (t, retry_disable_aux (call t) 3 0))

/-- The retry loop of `batch_update_patterns`: identical counting, but when the
counter reaches zero the last exception is re-raised (`raise`), modelled as
`Except.error` carrying the attempt count; success carries the attempt count. -/
def retry_batch_aux (call : Nat → Bool) : Nat → Nat → Except Nat Nat
  | 0, attempts => Except.error attempts
  | retries + 1, attempts =>
    if call attempts then Except.ok (attempts + 1)
    else if retries = 0 then Except.error (attempts + 1)
    else retry_batch_aux call retries (attempts + 1)

/-- The slices `patterns[i:i + batch_size]` taken by
`for i in range(0, len(patterns), batch_size)`.  The fuel argument only bounds
the iteration count; `patterns.length + 1` is enough whenever
`batch_size > 0`. -/
def batch_slices_aux {α : Type} (patterns : List α) (batch_size : Nat) :
    Nat → Nat → List (List α)
  | 0, _ => []
  | fuel + 1, i =>
    if i < patterns.length then
      ((patterns.drop i).take batch_size) :: batch_slices_aux patterns batch_size fuel (i + batch_size)
    else []

/-- The sequence of update-request bodies `batch_update_patterns` issues, in
order.  `batch_size = 0` makes Python's `range(0, n, 0)` raise `ValueError`,
modelled as `none`. -/
def batch_update_calls {α : Type} (patterns : List α) (batch_size : Nat) :
    Option (List (List α)) :=
  if batch_size = 0 then none
  else some (batch_slices_aux patterns batch_size (patterns.length + 1) 0)

/-- The lengths of the slices `batch_slices_aux` produces, computed purely
arithmetically (slice `i` has length `min batch_size (len - i)`). -/
def batchSizesAux (len bs : Nat) : Nat → Nat → List Nat
  | 0, _ => []
  | fuel + 1, i =>
    if i < len then min bs (len - i) :: batchSizesAux len bs fuel (i + bs) else []

/-- The `while True` pagination loop of `list_tool_patterns`: issue a request
with the current cursor, append the page data, stop when no cursor is
returned.  The remote service is the oracle `server`; `fuel` bounds the number
of requests (the real loop would spin forever on a server that always returns
a cursor), and the result carries the drained list and the number of listing
calls made. -/
def list_tool_patterns_aux {α : Type} (server : Option Nat → List α × Option Nat) :
    Nat → Option Nat → List α → Nat → Option (List α × Nat)
  | 0, _, _, _ => none
  | fuel + 1, cursor, acc, calls =>
    match server cursor with
    | (data, none) => some (acc ++ data, calls + 1)
    | (data, some c) => list_tool_patterns_aux server fuel (some c) (acc ++ data) (calls + 1)

/-- `list_tool_patterns`, starting with no cursor, an empty accumulator and no
calls made. -/
def list_tool_patterns {α : Type} (server : Option Nat → List α × Option Nat) (fuel : Nat) :
    Option (List α × Nat) :=
  list_tool_patterns_aux server fuel none [] 0

/-- A catalog served as 3 pages of sizes 100, 100 and 40, linked by cursors
`1` and `2`. -/
def c8_server : Option Nat → List Nat × Option Nat
  | none => (List.replicate 100 0, some 1)
  | some 1 => (List.replicate 100 1, some 2)
  | some 2 => (List.replicate 40 2, none)
  | some _ => ([], none)

/-! ## Config Text Normalizer (`clean_js_object`, `preprocess_extends`)

The regex substitutions of the source are embedded as character-list scanners.
Each scanner advances through the input exactly as `re.sub` does: at every
position it first tries to match the pattern; on a match it emits the
replacement and resumes after the matched text, otherwise it emits the
character and advances by one.  A `fuel` argument (always instantiated with
the input length, which bounds the number of scanner steps since every step
consumes at least one input character) makes the recursion structural. -/

/-- Python `\s` on ASCII text: space, tab, newline, carriage return,
vertical tab, form feed. -/
def isPyWs (c : Char) : Bool :=
  c = ' ' || c = '\t' || c = '\n' || c = '\r' || c = Char.ofNat 11 || c = Char.ofNat 12

/-- The character class `[a-zA-Z0-9_-]` of the bare-key regex. -/
def isWordChar (c : Char) : Bool :=
  c.isAlphanum || c = '_' || c = '-'

/-- `\s*` before a required non-whitespace literal: greedy and exact, since
giving back a whitespace character can never let the literal match. -/
def dropWs (l : List Char) : List Char := l.dropWhile isPyWs

/-- Non-greedy `.*?\n` (with `re.S`): consume up to and including the first
newline; no newline means the `//.*?\n` alternative fails. -/
def dropLineComment : List Char → Option (List Char)
  | [] => none
  | c :: rest => if c = '\n' then some rest else dropLineComment rest

/-- Non-greedy `.*?\*/`: consume up to and including the first `*/`; an
unterminated block means the `/\*.*?\*/` alternative fails. -/
def dropBlockComment : List Char → Option (List Char)
  | '*' :: '/' :: rest => some rest
  | _ :: rest => dropBlockComment rest
  | [] => none

/-- `re.sub(r'//.*?\n|/\*.*?\*/', '', content, flags=re.S)`: at each position
try the line-comment alternative first, then the block-comment one. -/
def stripCommentsAux : Nat → List Char → List Char
  | 0, l => l
  | _ + 1, [] => []
  | fuel + 1, c :: cs =>
    if c = '/' then
      match cs with
      | '/' :: rest =>
        match dropLineComment rest with
        | some r => stripCommentsAux fuel r
        | none => c :: stripCommentsAux fuel cs
      | '*' :: rest =>
        match dropBlockComment rest with
        | some r => stripCommentsAux fuel r
        | none => c :: stripCommentsAux fuel cs
      | _ => c :: stripCommentsAux fuel cs
    else c :: stripCommentsAux fuel cs

/-- Literal matcher: returns the input after the literal when it is a prefix. -/
def matchLit : List Char → List Char → Option (List Char)
  | [], l => some l
  | _ :: _, [] => none
  | p :: ps, c :: cs => if c = p then matchLit ps cs else none

/-- The character class `['"]`. -/
def matchQuoteChar : List Char → Option (List Char)
  | c :: cs => if c = squote || c = dquote then some cs else none
  | [] => none

/-- Matcher for the production-environment ternary idiom
`process\.env\.NODE_ENV\s*===\s*['"]production['"]\s*\?\s*['"]error['"]\s*:\s*['"]warn['"]`. -/
def matchTernary (l : List Char) : Option (List Char) :=
  (matchLit "process.env.NODE_ENV".toList l).bind fun l =>
  (matchLit "===".toList (dropWs l)).bind fun l =>
  (matchQuoteChar (dropWs l)).bind fun l =>
  (matchLit "production".toList l).bind fun l =>
  (matchQuoteChar l).bind fun l =>
  (matchLit "?".toList (dropWs l)).bind fun l =>
  (matchQuoteChar (dropWs l)).bind fun l =>
  (matchLit "error".toList l).bind fun l =>
  (matchQuoteChar l).bind fun l =>
  (matchLit ":".toList (dropWs l)).bind fun l =>
  (matchQuoteChar (dropWs l)).bind fun l =>
  (matchLit "warn".toList l).bind fun l =>
  matchQuoteChar l

/-- The substitution rewriting the ternary idiom to the literal `"warn"`. -/
def replaceTernaryAux : Nat → List Char → List Char
  | 0, l => l
  | _ + 1, [] => []
  | fuel + 1, c :: cs =>
    match matchTernary (c :: cs) with
    | some r => dquote :: 'w' :: 'a' :: 'r' :: 'n' :: dquote :: replaceTernaryAux fuel r
    | none => c :: replaceTernaryAux fuel cs

/-- `content.replace("'", '"')`. -/
def replaceSquotes (l : List Char) : List Char :=
  l.map (fun c => if c = squote then dquote else c)

/-- The lookahead `(?=\s*:)`: skip whitespace, require a colon.  Greedy `\s*`
is exact here since a given-back whitespace character can never equal `:`. -/
def lookaheadColon (l : List Char) : Bool :=
  match dropWs l with
  | ':' :: _ => true
  | _ => false

/-- Greedy backtracking of `([a-zA-Z0-9_-]+)(?=\s*:)`: try the run lengths
from longest to 1 and keep the first whose lookahead succeeds. -/
def tryKeyLen (l : List Char) : Nat → Option Nat
  | 0 => none
  | k + 1 => if lookaheadColon (l.drop (k + 1)) then some (k + 1) else tryKeyLen l k

/-- `re.sub(r'([a-zA-Z0-9_-]+)(?=\s*:)', r'"\1"', content)`: quote every bare
word run that is followed (after optional whitespace) by a colon; the
lookahead is not consumed. -/
def quoteBareKeysAux : Nat → List Char → List Char
  | 0, l => l
  | _ + 1, [] => []
  | fuel + 1, c :: cs =>
    if isWordChar c then
      match tryKeyLen (c :: cs) ((c :: cs).takeWhile isWordChar).length with
      | some k => (dquote :: (c :: cs).take k) ++ dquote :: quoteBareKeysAux fuel ((c :: cs).drop k)
      | none => c :: quoteBareKeysAux fuel cs
    else c :: quoteBareKeysAux fuel cs

/-- Python `str.split('\n')`. -/
def splitLines : List Char → List (List Char)
  | [] => [[]]
  | c :: cs =>
    if c = '\n' then [] :: splitLines cs
    else
      match splitLines cs with
      | [] => [[c]]
      | g :: gs => (c :: g) :: gs

/-- Strip every character satisfying `p` from both ends (Python `str.strip`). -/
def stripBoth (p : Char → Bool) (l : List Char) : List Char :=
  ((l.dropWhile p).reverse.dropWhile p).reverse

/-- One line of the extends body:
`line.strip().strip(',').strip('"')`, skip if empty, then the source's
quoting branches (`eslint:` / `plugin:` entries kept, other colon-containing
entries have inner quotes removed, `prettier` and everything else wrapped). -/
def processExtendsLine (line0 : List Char) : Option (List Char) :=
  let l1 := stripBoth (fun c => c = dquote)
    (stripBoth (fun c => c = ',') (stripBoth isPyWs line0))
  if l1.isEmpty then none
  else if "eslint:".toList.isPrefixOf l1 then some (dquote :: l1 ++ [dquote])
  else if "plugin:".toList.isPrefixOf l1 then some (dquote :: l1 ++ [dquote])
  else if l1.contains ':' then
    some (dquote :: l1.filter (fun c => !(c = dquote)) ++ [dquote])
  else if l1 = "prettier".toList then some (dquote :: "prettier".toList ++ [dquote])
  else some (dquote :: l1 ++ [dquote])

/-- `',\n        '.join(processed_lines)`. -/
def joinExtends : List (List Char) → List Char
  | [] => []
  | [e] => e
  | e :: f :: es => e ++ (',' :: '\n' :: "        ".toList) ++ joinExtends (f :: es)

/-- The replacement text built by `process_extends_content`. -/
def processExtendsContent (g : List Char) : List Char :=
  "\"extends\": [\n        ".toList
    ++ joinExtends ((splitLines g).filterMap processExtendsLine)
    ++ "\n    ]".toList

/-- The head of the extends regex `"extends"\s*:\s*\[`. -/
def matchExtendsHead (l : List Char) : Option (List Char) :=
  (matchLit "\"extends\"".toList l).bind fun l =>
  (matchLit ":".toList (dropWs l)).bind fun l =>
  matchLit "[".toList (dropWs l)

/-- Non-greedy `(.*?)\]` (with `re.DOTALL`): capture up to the first `]`. -/
def scanGroupRB : List Char → Option (List Char × List Char)
  | [] => none
  | c :: cs =>
    if c = ']' then some ([], cs)
    else
      match scanGroupRB cs with
      | some (g, rest) => some (c :: g, rest)
      | none => none

/-- `re.sub(extends_pattern, process_extends_content, content, flags=re.DOTALL)`. -/
def preprocessExtendsAux : Nat → List Char → List Char
  | 0, l => l
  | _ + 1, [] => []
  | fuel + 1, c :: cs =>
    match (matchExtendsHead (c :: cs)).bind scanGroupRB with
    | some (g, rest) => processExtendsContent g ++ preprocessExtendsAux fuel rest
    | none => c :: preprocessExtendsAux fuel cs

/-- `preprocess_extends`. -/
def preprocess_extends (content : String) : String :=
  String.mk (preprocessExtendsAux content.toList.length content.toList)

/-- The tail of `,(\s*[}\]])`: whitespace then a closing brace or bracket,
returned as (the captured group, the rest). -/
def matchCommaBracket (l : List Char) : Option (List Char × List Char) :=
  let ws := l.takeWhile isPyWs
  match l.drop ws.length with
  | c :: rest => if c = '\x7d' || c = ']' then some (ws ++ [c], rest) else none
  | [] => none

/-- The tail of `,(\s*\n\s*[}\]])`: `\s*\n\s*` matches exactly the
whitespace runs containing at least one newline, then a closing brace or
bracket. -/
def matchCommaNlBracket (l : List Char) : Option (List Char × List Char) :=
  let ws := l.takeWhile isPyWs
  if ws.contains '\n' then
    match l.drop ws.length with
    | c :: rest => if c = '\x7d' || c = ']' then some (ws ++ [c], rest) else none
    | [] => none
  else none

/-- `re.sub(r',(GROUP)', r'\1', content)` for the two trailing-comma patterns:
the comma is dropped and the captured group kept. -/
def removeCommasAux (m : List Char → Option (List Char × List Char)) :
    Nat → List Char → List Char
  | 0, l => l
  | _ + 1, [] => []
  | fuel + 1, c :: cs =>
    if c = ',' then
      match m cs with
      | some (g, rest) => g ++ removeCommasAux m fuel rest
      | none => c :: removeCommasAux m fuel cs
    else c :: removeCommasAux m fuel cs

/-- `clean_js_object`: the source's transform pipeline in order — comment
stripping, ternary rewriting, single-quote replacement, bare-key quoting,
extends post-processing, the two trailing-comma removals, and the final
`.strip()`. -/
def clean_js_object (content : String) : String :=
  let l0 := content.toList
  let l1 := stripCommentsAux l0.length l0
  let l2 := replaceTernaryAux l1.length l1
  let l3 := replaceSquotes l2
  let l4 := quoteBareKeysAux l3.length l3
  let l5 := preprocessExtendsAux l4.length l4
  let l6 := removeCommasAux matchCommaBracket l5.length l5
  let l7 := removeCommasAux matchCommaNlBracket l6.length l6
  String.mk (stripBoth isPyWs l7)

/-- The C9 input: an extends array whose three entries sit on their own lines
in the unquoted source dialect. -/
def c9input : String :=
  "\x7b\n    extends: [\n        eslint:recommended,\n        plugin:react/recommended,\n        prettier\n    ]\n\x7d"

/-- The C9 expected result: the same object with the extends entries each
double-quoted, in their original order. -/
def c9expected : String :=
  "\x7b\n    \"extends\": [\n        \"eslint:recommended\",\n        \"plugin:react/recommended\",\n        \"prettier\"\n    ]\n\x7d"

/-! ## Reconciler lemmas -/

theorem lookup_mem {m : List (String × String)} {k v : String}
    (h : m.lookup k = some v) : (k, v) ∈ m := by
  induction m with
  | nil => simp [List.lookup] at h
  | cons a as ih =>
    rw [List.lookup] at h
    by_cases hk : k == a.1
    · rw [hk] at h
      obtain rfl : a.2 = v := Option.some.inj h
      have : k = a.1 := by simpa using hk
      subst this
      exact List.mem_cons_self _ _
    · rw [Bool.not_eq_true] at hk
      rw [hk] at h
      exact List.mem_cons_of_mem _ (ih h)

theorem mem_lookup_isSome {m : List (String × String)} {k v : String}
    (h : (k, v) ∈ m) : (m.lookup k).isSome = true := by
  induction m with
  | nil => simp at h
  | cons a as ih =>
    rw [List.lookup]
    by_cases hk : k == a.1
    · rw [hk]; rfl
    · rw [Bool.not_eq_true] at hk
      rw [hk]
      rcases List.mem_cons.mp h with h1 | h1
      · exfalso
        have : k = a.1 := by rw [← h1]
        simp [this] at hk
      · exact ih h1

theorem foldl_pmStep_mono (l : List CatalogEntry) (m0 : List (String × String))
    (x : String × String) (hx : x ∈ m0) : x ∈ l.foldl pmStep m0 := by
  induction l generalizing m0 with
  | nil => exact hx
  | cons c cs ih =>
    refine ih (pmStep m0 c) ?_
    unfold pmStep
    match hcid : catalogId c with
    | none => exact hx
    | some pid => exact List.mem_cons_of_mem _ (List.mem_cons_of_mem _ hx)

theorem foldl_pmStep_values (l : List CatalogEntry) (m0 : List (String × String))
    (k v : String) (h : (k, v) ∈ l.foldl pmStep m0) :
    (k, v) ∈ m0 ∨ ∃ c ∈ l, catalogId c = some v := by
  induction l generalizing m0 with
  | nil => exact Or.inl h
  | cons c cs ih =>
    rcases ih (pmStep m0 c) h with h1 | h1
    · unfold pmStep at h1
      match hcid : catalogId c with
      | none =>
        rw [hcid] at h1
        exact Or.inl h1
      | some pid =>
        rw [hcid] at h1
        rcases List.mem_cons.mp h1 with h2 | h2
        · obtain rfl : pid = v := (congrArg Prod.snd h2).symm
          exact Or.inr ⟨c, List.mem_cons_self _ _, hcid⟩
        · rcases List.mem_cons.mp h2 with h3 | h3
          · obtain rfl : pid = v := (congrArg Prod.snd h3).symm
            exact Or.inr ⟨c, List.mem_cons_self _ _, hcid⟩
          · exact Or.inl h3
    · obtain ⟨c', hc', hid⟩ := h1
      exact Or.inr ⟨c', List.mem_cons_of_mem _ hc', hid⟩

theorem pattern_mapping_values (all_patterns : List CatalogEntry) (k v : String)
    (h : (k, v) ∈ pattern_mapping all_patterns) :
    ∃ c ∈ all_patterns, catalogId c = some v := by
  rcases foldl_pmStep_values all_patterns [] k v h with h1 | h1
  · simp at h1
  · exact h1

theorem foldl_pmStep_keys (l : List CatalogEntry) (c : CatalogEntry) (pid : String)
    (hid : catalogId c = some pid) :
    ∀ m0 : List (String × String), c ∈ l →
      (baseId pid, pid) ∈ l.foldl pmStep m0
        ∧ (replSlashUnd (baseId pid), pid) ∈ l.foldl pmStep m0 := by
  induction l with
  | nil => intro m0 hc; simp at hc
  | cons a as ih =>
    intro m0 hc
    rcases List.mem_cons.mp hc with h1 | h1
    · subst h1
      constructor
      · refine foldl_pmStep_mono as (pmStep m0 c) _ ?_
        unfold pmStep
        rw [hid]
        exact List.mem_cons_of_mem _ (List.mem_cons_self _ _)
      · refine foldl_pmStep_mono as (pmStep m0 c) _ ?_
        unfold pmStep
        rw [hid]
        exact List.mem_cons_self _ _
    · exact ih (pmStep m0 a) h1

theorem find_codacy_id_from_catalog (all_patterns : List CatalogEntry) (r v : String)
    (h : find_codacy_id (pattern_mapping all_patterns) r = some v) :
    ∃ c ∈ all_patterns, catalogId c = some v := by
  unfold find_codacy_id at h
  rcases h1 : (pattern_mapping all_patterns).lookup r with _ | w
  · rw [h1] at h
    exact pattern_mapping_values all_patterns (replSlashUnd r) v (lookup_mem h)
  · rw [h1] at h
    obtain rfl : w = v := Option.some.inj h
    exact pattern_mapping_values all_patterns r w (lookup_mem h1)

/-- C3: the reconciler enables only rules that resolve (directly or
underscore-normalized) to a catalog pattern id, and its disable list holds
exactly the catalog patterns whose id occurs in no enable-directive, each
disabled with an empty parameter list. -/
theorem reconciler_enable_disable (all_patterns : List CatalogEntry)
    (patterns : List CodacyPattern) :
    (∀ e ∈ enabled_patterns all_patterns patterns,
        e.enabled = true
        ∧ (∃ c ∈ all_patterns, catalogId c = some e.id)
        ∧ ∃ p ∈ patterns, find_codacy_id (pattern_mapping all_patterns) p.id = some e.id)
    ∧ ∀ d : PatternDirective,
        d ∈ disabled_patterns all_patterns patterns ↔
          ((∃ c ∈ all_patterns, catalogId c = some d.id)
            ∧ (∀ e ∈ enabled_patterns all_patterns patterns, e.id ≠ d.id)
            ∧ d.enabled = false ∧ d.parameters = []) := by
  constructor
  · intro e he
    obtain ⟨p, hp, hmap⟩ := List.mem_filterMap.mp he
    obtain ⟨cid, hcid, hdir⟩ := Option.map_eq_some'.mp hmap
    subst hdir
    exact ⟨rfl, find_codacy_id_from_catalog all_patterns p.id cid hcid,
      ⟨p, hp, hcid⟩⟩
  · intro d
    constructor
    · intro hd
      obtain ⟨c, hc, hmk⟩ := List.mem_filterMap.mp hd
      split at hmk
      · exact absurd hmk (by simp)
      · rename_i pid hpid
        split at hmk
        · exact absurd hmk (by simp)
        · rename_i hany
          obtain rfl : PatternDirective.mk pid false [] = d := Option.some.inj hmk
          refine ⟨⟨c, hc, hpid⟩, ?_, rfl, rfl⟩
          intro e he hed
          refine hany ?_
          refine List.any_eq_true.mpr ⟨e, he, ?_⟩
          simpa using hed
    · rintro ⟨⟨c, hc, hcid⟩, hne, hen, hpar⟩
      obtain ⟨i, en, pa⟩ := d
      have hen' : en = false := hen
      have hpar' : pa = [] := hpar
      subst hen'
      subst hpar'
      have hcid' : catalogId c = some i := hcid
      have hany : (enabled_patterns all_patterns patterns).any (fun ep => ep.id == i)
          = false := by
        rw [List.any_eq_false]
        intro e he
        simpa using hne e he
      refine List.mem_filterMap.mpr ⟨c, hc, ?_⟩
      simp [hcid', hany]

/-- C3 witness. -/
theorem reconciler_enable_disable_witness :
    PatternDirective.mk "ESLint8_semi" false [] ∈ disabled_patterns c3cat c3rules := by
  have h := reconciler_enable_disable c3cat c3rules
  refine (h.2 (PatternDirective.mk "ESLint8_semi" false [])).mpr
    ⟨⟨CatalogEntry.mk (some (PatternDefinition.mk (some "ESLint8_semi"))), by decide, rfl⟩,
      ?_, rfl, rfl⟩
  decide

/-- C4: the per-rule lookup tries the identifier directly first, then its
underscore-normalized form, first hit winning; concretely, `no-unused-vars`
resolves directly against catalog entry `ESLint8_no-unused-vars`, and
`react/jsx-uses-vars` has no direct hit but resolves to
`ESLint8_react_jsx-uses-vars` through the normalized fallback. -/
theorem find_codacy_id_resolution :
    (∀ (m : List (String × String)) (r v : String),
        m.lookup r = some v → find_codacy_id m r = some v)
    ∧ (∀ (m : List (String × String)) (r v : String),
        m.lookup r = none → m.lookup (replSlashUnd r) = some v → find_codacy_id m r = some v)
    ∧ (pattern_mapping c4catDirect).lookup "no-unused-vars" = some "ESLint8_no-unused-vars"
    ∧ enabled_patterns c4catDirect [CodacyPattern.mk "no-unused-vars" true "no-unused-vars" none]
        = [PatternDirective.mk "ESLint8_no-unused-vars" true []]
    ∧ (pattern_mapping c4catPlugin).lookup "react/jsx-uses-vars" = none
    ∧ find_codacy_id (pattern_mapping c4catPlugin) "react/jsx-uses-vars"
        = some "ESLint8_react_jsx-uses-vars"
    ∧ enabled_patterns c4catPlugin
        [CodacyPattern.mk "react/jsx-uses-vars" true "react/jsx-uses-vars" none]
        = [PatternDirective.mk "ESLint8_react_jsx-uses-vars" true []] := by
  refine ⟨?_, ?_, by decide, by decide, by decide, by decide, by decide⟩
  · intro m r v h
    simp [find_codacy_id, h]
  · intro m r v h1 h2
    simp [find_codacy_id, h1, h2]

/-- C4 witness. -/
theorem find_codacy_id_resolution_witness :
    find_codacy_id [("a", "b")] "a" = some "b" :=
  find_codacy_id_resolution.1 [("a", "b")] "a" "b" (by decide)

/-- C5 counterexample: for the catalog entry `ESLint8_no-unused-vars`, the raw
prefixed identifier is not a key of the matching dictionary the reconciler
builds — only the stripped and normalized forms are. -/
theorem pattern_mapping_raw_key_missing :
    (pattern_mapping c4catDirect).lookup "ESLint8_no-unused-vars" = none := by
  decide

/-- C5 (amended): for every catalog pattern, the matching dictionary contains
the prefix-stripped identifier and its underscore-normalized form as keys (not
the raw prefixed identifier), and every stored value is the raw identifier of
some catalog pattern. -/
theorem pattern_mapping_keys_amended (all_patterns : List CatalogEntry)
    (c : CatalogEntry) (pid : String) (hc : c ∈ all_patterns)
    (hid : catalogId c = some pid) :
    ((pattern_mapping all_patterns).lookup (baseId pid)).isSome = true
    ∧ ((pattern_mapping all_patterns).lookup (replSlashUnd (baseId pid))).isSome = true
    ∧ ∀ k v, (k, v) ∈ pattern_mapping all_patterns →
        ∃ c' ∈ all_patterns, catalogId c' = some v := by
  obtain ⟨h1, h2⟩ := foldl_pmStep_keys all_patterns c pid hid [] hc
  exact ⟨mem_lookup_isSome h1, mem_lookup_isSome h2,
    fun k v hv => pattern_mapping_values all_patterns k v hv⟩

/-- C5 witness. -/
theorem pattern_mapping_keys_amended_witness :
    ((pattern_mapping c4catPlugin).lookup "react_jsx-uses-vars").isSome = true := by
  have h := pattern_mapping_keys_amended c4catPlugin
    (CatalogEntry.mk (some (PatternDefinition.mk (some "ESLint8_react_jsx-uses-vars"))))
    "ESLint8_react_jsx-uses-vars" (by decide) rfl
  have hb : baseId "ESLint8_react_jsx-uses-vars" = "react_jsx-uses-vars" := by decide
  have h1 := h.1
  rw [hb] at h1
  exact h1

theorem retry_disable_cases (f : Nat → Bool) :
    retry_disable_aux f 3 0 =
      if f 0 then (1, true)
      else if f 1 then (2, true)
      else if f 2 then (3, true)
      else (3, false) := by
  by_cases h0 : f 0 <;> by_cases h1 : f 1 <;> by_cases h2 : f 2 <;>
    simp [retry_disable_aux, h0, h1, h2]

/-- C6 counterexample: a tool whose three disable attempts all fail is logged
and skipped — the traversal returns normally and still processes the next
tool, rather than propagating a fatal error that aborts the run. -/
theorem disable_all_tools_swallows_failure :
    disable_all_tools ["t1", "t2"] (fun t _ => t == "t2")
      = [("t1", 3, false), ("t2", 1, true)] := by
  decide

/-- C6 (amended): the disable call is retried up to 3 times; a tool is
reported failed only after all 3 attempts failed, and the failure is swallowed
(every tool still yields an entry and the traversal completes).  By contrast
the batch-update retry loop re-raises after its 3rd failed attempt. -/
theorem disable_retry_amended (tools : List String) (call : String → Nat → Bool) :
    (disable_all_tools tools call).length = tools.length
    ∧ (∀ r ∈ disable_all_tools tools call,
        r.2.1 ≤ 3 ∧ (r.2.2 = false → r.2.1 = 3 ∧ ∀ i < 3, call r.1 i = false))
    ∧ ∀ f : Nat → Bool, (∀ i < 3, f i = false) → retry_batch_aux f 3 0 = Except.error 3 := by
  refine ⟨by simp [disable_all_tools], ?_, ?_⟩
  · intro r hr
    obtain ⟨t, ht, rfl⟩ := List.mem_map.mp hr
    by_cases h0 : call t 0
    · simp [retry_disable_aux, h0]
    · rw [Bool.not_eq_true] at h0
      by_cases h1 : call t 1
      · simp [retry_disable_aux, h0, h1]
      · rw [Bool.not_eq_true] at h1
        by_cases h2 : call t 2
        · simp [retry_disable_aux, h0, h1, h2]
        · rw [Bool.not_eq_true] at h2
          refine ⟨by simp [retry_disable_aux, h0, h1, h2], fun _ => ⟨by
            simp [retry_disable_aux, h0, h1, h2], ?_⟩⟩
          intro i hi
          interval_cases i
          · exact h0
          · exact h1
          · exact h2
  · intro f hf
    have h0 : f 0 = false := hf 0 (by norm_num)
    have h1 : f 1 = false := hf 1 (by norm_num)
    have h2 : f 2 = false := hf 2 (by norm_num)
    simp [retry_batch_aux, h0, h1, h2]

/-- C6 witness. -/
theorem disable_retry_amended_witness :
    (disable_all_tools ["tool-a"] (fun _ _ => false)).length = 1 :=
  (disable_retry_amended ["tool-a"] (fun _ _ => false)).1

theorem batch_slices_aux_join {α : Type} (l : List α) (bs : Nat) :
    ∀ fuel i, l.length ≤ i + fuel * bs →
      (batch_slices_aux l bs fuel i).flatten = l.drop i := by
  intro fuel
  induction fuel with
  | zero =>
    intro i hi
    rw [List.drop_eq_nil_of_le (by simpa using hi)]
    rfl
  | succ fuel ih =>
    intro i hi
    rw [batch_slices_aux]
    by_cases h : i < l.length
    · rw [if_pos h, List.flatten_cons, ih (i + bs) (by
        calc l.length ≤ i + (fuel + 1) * bs := hi
          _ = (i + bs) + fuel * bs := by ring)]
      have hdd : l.drop (i + bs) = (l.drop i).drop bs := by
        rw [List.drop_drop, Nat.add_comm]
      rw [hdd, List.take_append_drop]
    · rw [if_neg h]
      rw [List.drop_eq_nil_of_le (Nat.le_of_not_lt h)]
      rfl

theorem batch_slices_aux_sizes {α : Type} (l : List α) (bs : Nat) :
    ∀ fuel i, ∀ c ∈ batch_slices_aux l bs fuel i, c.length ≤ bs := by
  intro fuel
  induction fuel with
  | zero =>
    intro i c hc
    simp [batch_slices_aux] at hc
  | succ fuel ih =>
    intro i c hc
    rw [batch_slices_aux] at hc
    by_cases h : i < l.length
    · rw [if_pos h] at hc
      rcases List.mem_cons.mp hc with h1 | h1
      · subst h1
        rw [List.length_take]
        exact Nat.min_le_left _ _
      · exact ih (i + bs) c h1
    · rw [if_neg h] at hc
      simp at hc

theorem batch_slices_aux_lengths {α : Type} (l : List α) (bs : Nat) :
    ∀ fuel i, (batch_slices_aux l bs fuel i).map List.length
      = batchSizesAux l.length bs fuel i := by
  intro fuel
  induction fuel with
  | zero =>
    intro i
    rfl
  | succ fuel ih =>
    intro i
    rw [batch_slices_aux, batchSizesAux]
    by_cases h : i < l.length
    · rw [if_pos h, if_pos h, List.map_cons, ih (i + bs)]
      congr 1
      rw [List.length_take, List.length_drop]
    · rw [if_neg h, if_neg h]
      rfl

/-- C7: every sequence of update calls the batcher issues consists of
consecutive slices that never exceed the batch size and that concatenate back
to the input; with 2500 directives and batch size 1000 exactly 3 calls are
issued, of sizes 1000, 1000 and 500, in order. -/
theorem batch_update_calls_spec :
    (∀ {α : Type} (l : List α) (bs : Nat) (cs : List (List α)),
        batch_update_calls l bs = some cs → (∀ c ∈ cs, c.length ≤ bs) ∧ cs.flatten = l)
    ∧ (batch_update_calls (List.replicate 2500 0) 1000).map (List.map List.length)
        = some [1000, 1000, 500] := by
  constructor
  · intro α l bs cs h
    unfold batch_update_calls at h
    by_cases hbs : bs = 0
    · rw [if_pos hbs] at h
      exact absurd h (by simp)
    · rw [if_neg hbs] at h
      obtain rfl : batch_slices_aux l bs (l.length + 1) 0 = cs := Option.some.inj h
      refine ⟨fun c hc => batch_slices_aux_sizes l bs _ 0 c hc, ?_⟩
      have hb1 : 1 ≤ bs := Nat.pos_of_ne_zero hbs
      have hmul : (l.length + 1) * 1 ≤ (l.length + 1) * bs :=
        Nat.mul_le_mul_left (l.length + 1) hb1
      have hj := batch_slices_aux_join l bs (l.length + 1) 0 (by omega)
      simpa using hj
  · have hgen : (batch_update_calls (List.replicate 2500 0) 1000).map (List.map List.length)
        = some (batchSizesAux (List.replicate (α := Nat) 2500 0).length 1000
            ((List.replicate (α := Nat) 2500 0).length + 1) 0) := by
      unfold batch_update_calls
      rw [if_neg (by norm_num)]
      rw [Option.map_some']
      rw [batch_slices_aux_lengths]
    rw [hgen, List.length_replicate]
    decide

/-- C7 witness. -/
theorem batch_update_calls_spec_witness :
    ([[0, 0], [0, 0], [0]] : List (List Nat)).flatten = List.replicate 5 0 :=
  (batch_update_calls_spec.1 (List.replicate 5 0) 2 [[0, 0], [0, 0], [0]] (by decide)).2

set_option maxRecDepth 2000 in
/-- C8: on a catalog served as 3 cursor-linked pages of sizes 100, 100 and 40,
the pagination drain issues exactly 3 listing calls and returns the
concatenation of the pages — 240 pattern definitions — in order. -/
theorem list_tool_patterns_three_pages :
    list_tool_patterns c8_server 3
      = some (List.replicate 100 0 ++ List.replicate 100 1 ++ List.replicate 40 2, 3)
    ∧ (list_tool_patterns c8_server 3).map (fun r => (r.1.length, r.2)) = some (240, 3) := by
  constructor <;> decide

set_option maxRecDepth 4000 in
/-- C9: on the configuration text whose extends array lists
`eslint:recommended`, `plugin:react/recommended` and `prettier` each on its
own line in the unquoted source dialect, the normalization pipeline yields an
extends array with exactly those three entries, each double-quoted, in their
original order. -/
theorem clean_js_object_extends_roundtrip : clean_js_object c9input = c9expected := by
  rfl
